import Mathlib

/-!
Verification of the PDF-to-Markdown pipeline in `src/pdf2md.py`
(class `PDFToMarkdownConverter`).  The Python code is embedded shallowly:

* the remote model call of one attempt is an oracle
  `call : Nat → Except String String` giving that attempt's outcome
  (`.ok text` is `response.text`, `.error e` is the caught exception's
  message — covering `_read_pdf_file`, `fitz.open` and
  `model.generate_content`, all inside the same `try`);
* thread completion order in the concurrent branch is an explicit list
  `order` of chunk indices (a permutation of `0 .. N-1`); the sequential
  branch is `order = List.range N`;
* the filesystem is a list of artifact names (for the cleanup claims)
  resp. a map from paths to contents (for `save_markdown`);
* `time.sleep` calls are recorded as a list of durations.
-/

namespace Pdf2Md

/-- Result dict `{'index': …, 'content': …, 'success': …}` built by
`_process_chunk` (lines 136-140 and 146-150 of `src/pdf2md.py`). -/
structure ChunkResult where
  index : Nat
  content : String
  success : Bool
deriving Repr, DecidableEq

/-- Python `range(0, stop, step)` for a positive `step` (the loop header of
`_split_pdf`, line 79): the multiples `k * step` that are `< stop`, i.e. the
first `⌈stop / step⌉` multiples of `step`. -/
def pyRange (stop step : Nat) : List Nat :=
  (List.range ((stop + step - 1) / step)).map (fun k => k * step)

/-- One chunk artifact's page range, 0-based half-open: `_split_pdf` copies
pages `from_page = start` through `to_page = stop - 1`. -/
structure Chunk where
  start : Nat
  stop : Nat
deriving Repr, DecidableEq

/-- The 0-based page numbers contained in a chunk. -/
def Chunk.pages (c : Chunk) : List Nat := List.range' c.start (c.stop - c.start)

/-- Number of pages in a chunk. -/
def Chunk.pageCount (c : Chunk) : Nat := c.stop - c.start

/-- First page of a chunk in 1-based numbering (as printed in logs). -/
def Chunk.firstPage (c : Chunk) : Nat := c.start + 1

/-- Last page of a chunk in 1-based numbering. -/
def Chunk.lastPage (c : Chunk) : Nat := c.stop

/-- `_split_pdf` (lines 69-90): `for start in range(0, total_pages, chunk_size)`
creates a sub-document with `end = min(start + chunk_size, total_pages)`
holding pages `start .. end - 1`. -/
def splitPdf (totalPages chunkSize : Nat) : List Chunk :=
  (pyRange totalPages chunkSize).map
    (fun start => ⟨start, min (start + chunkSize) totalPages⟩)

/-- Failure placeholder written into `content` when all retries are
exhausted (line 148: `f"<!-- 处理失败: {str(e)} -->"`). -/
def failContent (e : String) : String := "<!-- 处理失败: " ++ e ++ " -->"

/-- Observable behaviour of one `_process_chunk` call: the returned value
(`none` models Python falling off the `for` loop and returning `None`,
which happens exactly when `max_retries = 0`), the number of attempts made
(invocations of the `try` body), and the `time.sleep` durations in order. -/
structure ChunkTrace where
  result : Option ChunkResult
  callCount : Nat
  delays : List Nat
deriving Repr, DecidableEq

/-- Body of the retry loop of `_process_chunk` (lines 120-150), iterating
over the list of remaining attempt numbers.  On success the result dict is
returned at once; on failure the code always sleeps `2 ** attempt` seconds
(line 143) and only then tests whether this was the final attempt
(line 145). -/
def processChunkLoop (maxRetries chunkIndex : Nat)
    (call : Nat → Except String String) : List Nat → ChunkTrace
  | [] => ⟨none, 0, []⟩
  | attempt :: rest =>
    match call attempt with
    | Except.ok text => ⟨some ⟨chunkIndex, text, true⟩, 1, []⟩
    | Except.error e =>
      if attempt = maxRetries - 1 then
        ⟨some ⟨chunkIndex, failContent e, false⟩, 1, [2 ^ attempt]⟩
      else
        ⟨(processChunkLoop maxRetries chunkIndex call rest).result,
         (processChunkLoop maxRetries chunkIndex call rest).callCount + 1,
         2 ^ attempt :: (processChunkLoop maxRetries chunkIndex call rest).delays⟩

/-- `_process_chunk` (lines 113-150): `for attempt in range(self.max_retries)`. -/
def processChunk (maxRetries chunkIndex : Nat)
    (call : Nat → Except String String) : ChunkTrace :=
  processChunkLoop maxRetries chunkIndex call (List.range maxRetries)

/-- The per-chunk results in the order they are appended to `results`
(lines 180-195): element `k` of `order` is the index of the chunk whose
`_process_chunk` return value is appended `k`-th.  `calls i` is the attempt
oracle of chunk `i`. -/
def collectResults (maxRetries : Nat)
    (calls : Nat → Nat → Except String String) (order : List Nat) :
    List (Option ChunkResult) :=
  order.map (fun i => (processChunk maxRetries i (calls i)).result)

/-- Sorting step `results.sort(key=lambda x: x['index'])` (line 198).
Python's `list.sort` is a stable comparison sort on the integer key; it is
modelled by the structurally recursive stable `insertionSort` on the same
key (every collection this pipeline sorts has pairwise distinct indices, so
the index-sorted arrangement is unique and any correct sort agrees). -/
def sortResults (rs : List ChunkResult) : List ChunkResult :=
  rs.insertionSort (fun a b => a.index ≤ b.index)

/-- Extraction of the list of dicts from the collected `results`: `some rs`
when every entry is a dict, `none` when some entry is Python `None`, in
which case the sort key `lambda x: x['index']` raises `TypeError`. -/
def allSome {α : Type} : List (Option α) → Option (List α)
  | [] => some []
  | none :: _ => none
  | some a :: rest => (allSome rest).map (fun as => a :: as)

/-- Wrapper applied to any exception escaping the orchestration
(line 217: `f"转换过程出错: {str(e)}"`). -/
def wrapError (e : String) : String := "转换过程出错: " ++ e

/-- Value semantics of `convert_to_markdown` (lines 151-227): split, collect
per-chunk results in completion order `order`, sort by index, join with a
blank line; the success-ratio statistic of line 213 divides by
`chunks_count` and raises `ZeroDivisionError` when no chunks exist, which
the `except` block wraps and re-raises. -/
def convertToMarkdown (totalPages chunkSize maxRetries : Nat)
    (calls : Nat → Nat → Except String String) (order : List Nat) :
    Except String String :=
  let chunks := splitPdf totalPages chunkSize
  let chunksCount := chunks.length
  match allSome (collectResults maxRetries calls order) with
  | none => Except.error (wrapError "TypeError: NoneType is not subscriptable")
  | some rs =>
    let markdownContent :=
      String.intercalate "\n\n" ((sortResults rs).map ChunkResult.content)
    if chunksCount = 0 then Except.error (wrapError "division by zero")
    else Except.ok markdownContent

/-- Content field of chunk `i`'s result (well-defined whenever
`_process_chunk` returned a dict, i.e. whenever `max_retries ≥ 1`). -/
def chunkContent (maxRetries : Nat)
    (calls : Nat → Nat → Except String String) (i : Nat) : String :=
  match (processChunk maxRetries i (calls i)).result with
  | some r => r.content
  | none => ""

/-! ### Resource semantics of `convert_to_markdown` (cleanup and wrapping) -/

/-- Outcome of the `_split_pdf` call as seen from `convert_to_markdown`:
either it returns the list of created chunk-artifact paths, or it raises
after already having created some of them (`new_doc.save` runs once per
chunk inside the loop, so an exception part-way through leaves the earlier
artifacts on disk). -/
inductive SplitOutcome where
  | ok (files : List String)
  | err (createdFiles : List String) (msg : String)
deriving Repr, DecidableEq

/-- Artifact files `_split_pdf` wrote to disk before returning or raising. -/
def SplitOutcome.created : SplitOutcome → List String
  | .ok files => files
  | .err createdFiles _ => createdFiles

/-- Value of the local variable `temp_files` after line 165: the assignment
happens only if `_split_pdf` returned normally; if it raised, `temp_files`
keeps the initial value `[]` of line 162. -/
def SplitOutcome.assigned : SplitOutcome → List String
  | .ok files => files
  | .err _ _ => []

/-- Resource semantics of `convert_to_markdown` (lines 162-227).  The disk
is a list of artifact names; `body` is the processing-and-assembly code of
the `try` block after the split (lines 166-215), returning markdown or
raising; the `except` block (lines 216-219) wraps the message and
re-raises; the `finally` block (lines 220-227) removes every `temp_files`
entry still on disk before any exception propagates.  The result is the
disk contents observable after the call together with the call's outcome. -/
def convertFS (disk : List String) (split : SplitOutcome)
    (body : List String → Except String String) :
    List String × Except String String :=
  let diskAfterSplit := disk ++ split.created
  let tempFiles := split.assigned
  let outcome : Except String String :=
    match split with
    | .err _ m => Except.error (wrapError m)
    | .ok files =>
      match body files with
      | Except.ok md => Except.ok md
      | Except.error e => Except.error (wrapError e)
  (diskAfterSplit.filter (fun f => !(tempFiles.contains f)), outcome)

/-- The filesystem for `save_markdown`: a map from paths to file contents. -/
def FileMap := String → Option String

/-- `save_markdown` (lines 231-242): `open(output_path, 'w')` truncates any
existing destination and writes the full text. -/
def saveMarkdown (fs : FileMap) (markdownText outputPath : String) : FileMap :=
  fun p => if p = outputPath then some markdownText else fs p

/-! ### Deterministic fake clients used as concrete instances -/

/-- A client whose remote call fails on every attempt of every chunk. -/
def alwaysFail : Nat → Except String String := fun _ => Except.error "network error"

/-- Fake client for 5 chunks succeeding immediately with contents
`"A" .. "E"`. -/
def fakeFive : Nat → Nat → Except String String :=
  fun i _ => Except.ok (["A", "B", "C", "D", "E"].getD i "")

/-- Fake client where every chunk succeeds immediately with content
`"chunk{index}"`. -/
def fakeChunks : Nat → Nat → Except String String :=
  fun i _ => Except.ok ("chunk" ++ toString i)

/-- Fake client where chunk 0 always fails and every other chunk succeeds. -/
def oneFailOneOk : Nat → Nat → Except String String :=
  fun i _ => if i = 0 then Except.error "boom" else Except.ok "good"

/-- Fake client succeeding immediately with a fixed content. -/
def fakeOk : Nat → Nat → Except String String := fun _ _ => Except.ok "x"

/-! ### Lemmas about the retry loop of `_process_chunk` -/

lemma processChunkLoop_result_index (m i : Nat) (call : Nat → Except String String) :
    ∀ (l : List Nat) (r : ChunkResult),
      (processChunkLoop m i call l).result = some r → r.index = i := by
  intro l
  induction l with
  | nil => intro r h; simp [processChunkLoop] at h
  | cons a rest ih =>
    intro r h
    cases hc : call a with
    | ok t =>
      simp only [processChunkLoop, hc] at h
      obtain rfl : (⟨i, t, true⟩ : ChunkResult) = r := Option.some_inj.mp h
      rfl
    | error e =>
      by_cases hlast : a = m - 1
      · simp only [processChunkLoop, hc, if_pos hlast] at h
        obtain rfl : (⟨i, failContent e, false⟩ : ChunkResult) = r := Option.some_inj.mp h
        rfl
      · simp only [processChunkLoop, hc, if_neg hlast] at h
        exact ih r h

lemma processChunkLoop_all_fail (m i : Nat) (call : Nat → Except String String)
    (err : Nat → String) (hfail : ∀ k, call k = Except.error (err k)) :
    ∀ k a, a + k = m → 1 ≤ k →
      processChunkLoop m i call (List.range' a k) =
        ⟨some ⟨i, failContent (err (m - 1)), false⟩, k,
         (List.range' a k).map (fun j => 2 ^ j)⟩ := by
  intro k
  induction k with
  | zero => intro a _ h; omega
  | succ k ih =>
    intro a ha _
    rw [List.range'_succ]
    by_cases hlast : a = m - 1
    · have hk : k = 0 := by omega
      subst hk
      subst hlast
      simp [processChunkLoop, hfail]
    · have hk : 1 ≤ k := by omega
      simp only [processChunkLoop, hfail a, if_neg hlast,
        ih (a + 1) (by omega) hk, List.map_cons]

lemma processChunk_all_fail (m i : Nat) (hm : 1 ≤ m)
    (call : Nat → Except String String)
    (err : Nat → String) (hfail : ∀ k, call k = Except.error (err k)) :
    processChunk m i call =
      ⟨some ⟨i, failContent (err (m - 1)), false⟩, m,
       (List.range m).map (fun j => 2 ^ j)⟩ := by
  unfold processChunk
  rw [List.range_eq_range',
    processChunkLoop_all_fail m i call err hfail m 0 (by omega) hm,
    ← List.range_eq_range']

lemma processChunkLoop_result_isSome (m i : Nat) (call : Nat → Except String String) :
    ∀ k a, a + k = m → 1 ≤ k →
      ∃ c b, (processChunkLoop m i call (List.range' a k)).result = some ⟨i, c, b⟩ := by
  intro k
  induction k with
  | zero => intro a _ h; omega
  | succ k ih =>
    intro a ha _
    rw [List.range'_succ]
    cases hc : call a with
    | ok t => exact ⟨t, true, by simp [processChunkLoop, hc]⟩
    | error e =>
      by_cases hlast : a = m - 1
      · subst hlast
        exact ⟨failContent e, false, by simp [processChunkLoop, hc]⟩
      · have hk : 1 ≤ k := by omega
        obtain ⟨c, b, hcb⟩ := ih (a + 1) (by omega) hk
        exact ⟨c, b, by simp only [processChunkLoop, hc, if_neg hlast]; exact hcb⟩

lemma processChunk_result_eq_some (m i : Nat) (hm : 1 ≤ m)
    (call : Nat → Except String String) :
    ∃ c b, (processChunk m i call).result = some ⟨i, c, b⟩ := by
  unfold processChunk
  rw [List.range_eq_range']
  exact processChunkLoop_result_isSome m i call m 0 (by omega) hm

/-! ### Lemmas about `allSome` (the `None`-detection of the sort key) -/

lemma allSome_eq_none_iff {α : Type} (l : List (Option α)) :
    allSome l = none ↔ none ∈ l := by
  induction l with
  | nil => simp [allSome]
  | cons o rest ih =>
    cases o with
    | none => simp [allSome]
    | some a => simp [allSome, Option.map_eq_none', ih]

lemma allSome_eq_some_iff {α : Type} :
    ∀ (l : List (Option α)) (rs : List α),
      allSome l = some rs ↔ l = rs.map some := by
  intro l
  induction l with
  | nil => intro rs; cases rs <;> simp [allSome]
  | cons o rest ih =>
    intro rs
    cases o with
    | none => cases rs <;> simp [allSome]
    | some a =>
      cases rs with
      | nil => simp [allSome]
      | cons r rs' =>
        constructor
        · intro h
          simp only [allSome, Option.map_eq_some'] at h
          obtain ⟨x, hx, hax⟩ := h
          injection hax with h1 h2
          subst h1
          subst h2
          simp [(ih x).mp hx]
        · intro h
          injection h with h1 h2
          obtain rfl : a = r := Option.some_inj.mp h1
          simp [allSome, (ih rs').mpr h2]

lemma allSome_perm {α : Type} {l l' : List (Option α)} (h : l.Perm l')
    {rs' : List α} (h' : allSome l' = some rs') :
    ∃ rs : List α, allSome l = some rs ∧ rs.Perm rs' := by
  cases hl : allSome l with
  | none =>
    exfalso
    rw [allSome_eq_none_iff] at hl
    have hmem : none ∈ l' := h.mem_iff.mp hl
    rw [← allSome_eq_none_iff] at hmem
    rw [hmem] at h'
    exact Option.noConfusion h'
  | some rs =>
    refine ⟨rs, rfl, ?_⟩
    have hl2 : l = rs.map some := (allSome_eq_some_iff l rs).mp hl
    have hl2' : l' = rs'.map some := (allSome_eq_some_iff l' rs').mp h'
    have hperm : (rs.map some).Perm (rs'.map some) := by
      rw [← hl2, ← hl2']; exact h
    have hfm := hperm.filterMap id
    simpa [List.filterMap_map, Function.comp, List.filterMap_some] using hfm

/-! ### Lemmas about the collected results -/

lemma collectResults_cons (m : Nat) (calls : Nat → Nat → Except String String)
    (i : Nat) (t : List Nat) :
    collectResults m calls (i :: t) =
      (processChunk m i (calls i)).result :: collectResults m calls t := rfl

lemma collect_eq (m : Nat) (hm : 1 ≤ m) (calls : Nat → Nat → Except String String) :
    ∀ l : List Nat, ∃ rs : List ChunkResult,
      allSome (collectResults m calls l) = some rs ∧
      rs.map ChunkResult.index = l ∧
      rs.map ChunkResult.content = l.map (chunkContent m calls) := by
  intro l
  induction l with
  | nil => exact ⟨[], rfl, rfl, rfl⟩
  | cons i t ih =>
    obtain ⟨rs, h1, h2, h3⟩ := ih
    obtain ⟨c, b, hcb⟩ := processChunk_result_eq_some m i hm (calls i)
    refine ⟨⟨i, c, b⟩ :: rs, ?_, ?_, ?_⟩
    · rw [collectResults_cons, hcb]
      simp [allSome, h1]
    · simp [h2]
    · simp only [List.map_cons, h3]
      congr 1
      simp [chunkContent, hcb]

lemma collect_some_map_index (m : Nat) (calls : Nat → Nat → Except String String) :
    ∀ (l : List Nat) (rs : List ChunkResult),
      allSome (collectResults m calls l) = some rs →
      rs.map ChunkResult.index = l := by
  intro l
  induction l with
  | nil =>
    intro rs h
    obtain rfl : ([] : List ChunkResult) = rs := Option.some_inj.mp h
    rfl
  | cons i t ih =>
    intro rs h
    rw [collectResults_cons] at h
    cases hres : (processChunk m i (calls i)).result with
    | none => rw [hres] at h; simp [allSome] at h
    | some r =>
      rw [hres] at h
      simp only [allSome, Option.map_eq_some'] at h
      obtain ⟨rs', hrs', rfl⟩ := h
      have hri : r.index = i :=
        processChunkLoop_result_index m i (calls i) (List.range m) r hres
      simp [hri, ih rs' hrs']

/-! ### Lemmas about the index sort of line 198 -/

instance : IsTrans ChunkResult (fun a b => a.index ≤ b.index) :=
  ⟨fun _ _ _ h1 h2 => Nat.le_trans h1 h2⟩

instance : IsTotal ChunkResult (fun a b => a.index ≤ b.index) :=
  ⟨fun a b => Nat.le_total a.index b.index⟩

instance : IsAntisymm ChunkResult (fun a b => a.index < b.index) :=
  ⟨fun _ _ h1 h2 => absurd h2 (Nat.lt_asymm h1)⟩

lemma sortResults_eq_sorted (rs ss : List ChunkResult) (hperm : rs.Perm ss)
    (hsorted : ss.Pairwise (fun a b => a.index < b.index)) :
    sortResults rs = ss := by
  have h1 : (sortResults rs).Perm ss :=
    (List.perm_insertionSort _ rs).trans hperm
  have hle : (sortResults rs).Pairwise (fun a b => a.index ≤ b.index) :=
    List.sorted_insertionSort _ rs
  have hnes : ss.Pairwise (fun a b : ChunkResult => a.index ≠ b.index) :=
    hsorted.imp Nat.ne_of_lt
  have hne : (sortResults rs).Pairwise (fun a b : ChunkResult => a.index ≠ b.index) :=
    (List.Perm.pairwise_iff (fun h => Ne.symm h) h1).mpr hnes
  have hlt : (sortResults rs).Pairwise (fun a b => a.index < b.index) :=
    (hle.and hne).imp (fun h => Nat.lt_of_le_of_ne h.1 h.2)
  exact List.eq_of_perm_of_sorted h1 hlt hsorted

lemma pairwise_lt_of_map_index_range {rs : List ChunkResult} {n : Nat}
    (h : rs.map ChunkResult.index = List.range n) :
    rs.Pairwise (fun a b => a.index < b.index) := by
  have hp := List.pairwise_lt_range n
  rw [← h] at hp
  exact List.pairwise_map.mp hp

/-! ### Lemmas about `convert_to_markdown` -/

lemma convert_eq_seq (P s m : Nat) (calls : Nat → Nat → Except String String)
    (order : List Nat)
    (horder : order.Perm (List.range (splitPdf P s).length)) :
    convertToMarkdown P s m calls order =
      convertToMarkdown P s m calls (List.range (splitPdf P s).length) := by
  have hperm : (collectResults m calls order).Perm
      (collectResults m calls (List.range (splitPdf P s).length)) :=
    horder.map _
  cases h' : allSome (collectResults m calls (List.range (splitPdf P s).length)) with
  | none =>
    have h0 : allSome (collectResults m calls order) = none := by
      rw [allSome_eq_none_iff] at h' ⊢
      exact hperm.mem_iff.mpr h'
    simp only [convertToMarkdown, h0, h']
  | some rs' =>
    obtain ⟨rs, hrs, hperm_rs⟩ := allSome_perm hperm h'
    have hidx' : rs'.map ChunkResult.index = List.range (splitPdf P s).length :=
      collect_some_map_index m calls _ rs' h'
    have hsorted' : rs'.Pairwise (fun a b => a.index < b.index) :=
      pairwise_lt_of_map_index_range hidx'
    have hs1 : sortResults rs = rs' := sortResults_eq_sorted rs rs' hperm_rs hsorted'
    have hs2 : sortResults rs' = rs' :=
      sortResults_eq_sorted rs' rs' (List.Perm.refl rs') hsorted'
    simp only [convertToMarkdown, hrs, h', hs1, hs2]

lemma convert_seq_eval (P s m : Nat) (hm : 1 ≤ m)
    (hn : 1 ≤ (splitPdf P s).length) (calls : Nat → Nat → Except String String) :
    convertToMarkdown P s m calls (List.range (splitPdf P s).length) =
      Except.ok (String.intercalate "\n\n"
        ((List.range (splitPdf P s).length).map (chunkContent m calls))) := by
  obtain ⟨rs, h1, h2, h3⟩ := collect_eq m hm calls (List.range (splitPdf P s).length)
  have hsorted : rs.Pairwise (fun a b => a.index < b.index) :=
    pairwise_lt_of_map_index_range h2
  have hs : sortResults rs = rs :=
    sortResults_eq_sorted rs rs (List.Perm.refl rs) hsorted
  simp only [convertToMarkdown, h1, hs, h3]
  rw [if_neg (by omega)]

/-! ### Lemmas about `_split_pdf` -/

lemma splitPdf_length (P s : Nat) : (splitPdf P s).length = (P + s - 1) / s := by
  simp [splitPdf, pyRange]

lemma splitPdf_eq_map_range (P s : Nat) :
    splitPdf P s = (List.range ((P + s - 1) / s)).map
      (fun k => (⟨k * s, min (k * s + s) P⟩ : Chunk)) := by
  simp only [splitPdf, pyRange, List.map_map]
  rfl

lemma ceil_mul_bounds (P s : Nat) (hP : 1 ≤ P) (hs : 1 ≤ s) :
    P ≤ ((P + s - 1) / s) * s ∧ (((P + s - 1) / s) - 1) * s < P := by
  have h1 : ((P + s - 1) / s) * s ≤ P + s - 1 := Nat.div_mul_le_self _ _
  have h2 : P + s - 1 < ((P + s - 1) / s + 1) * s :=
    (Nat.div_lt_iff_lt_mul (by omega)).mp (Nat.lt_succ_self _)
  have h3 : ((P + s - 1) / s + 1) * s = ((P + s - 1) / s) * s + s := Nat.succ_mul _ _
  have h4 : (((P + s - 1) / s) - 1) * s = ((P + s - 1) / s) * s - 1 * s :=
    Nat.sub_mul _ _ _
  rw [Nat.one_mul] at h4
  omega

lemma split_flatten_aux (P s : Nat) :
    ∀ m : Nat,
      (((List.range m).map
          (fun k => (⟨k * s, min (k * s + s) P⟩ : Chunk))).map Chunk.pages).flatten
        = List.range (min (m * s) P) := by
  intro m
  induction m with
  | zero => simp
  | succ m ih =>
    rw [List.range_succ]
    simp only [List.map_append, List.flatten_append, ih, List.map_cons, List.map_nil,
      List.flatten_cons, List.flatten_nil, List.append_nil]
    have hmul : (m + 1) * s = m * s + s := Nat.succ_mul m s
    by_cases hcase : P ≤ m * s
    · have h1 : min (m * s) P = P := by omega
      have h2 : min (m * s + s) P = P := by omega
      have h3 : min ((m + 1) * s) P = P := by omega
      have h4 : P - m * s = 0 := by omega
      rw [h1, h2, h3]
      simp [Chunk.pages, h4]
    · have h1 : min (m * s) P = m * s := by omega
      have h2 : m * s ≤ min (m * s + s) P := by omega
      rw [h1, List.range_eq_range', Chunk.pages]
      have happ := List.range'_append_1 0 (m * s) (min (m * s + s) P - m * s)
      rw [Nat.zero_add] at happ
      rw [happ]
      rw [← List.range_eq_range']
      congr 1
      omega

lemma splitPdf_flatten (P s : Nat) (hP : 1 ≤ P) (hs : 1 ≤ s) :
    ((splitPdf P s).map Chunk.pages).flatten = List.range P := by
  rw [splitPdf_eq_map_range, split_flatten_aux]
  congr 1
  have hb := (ceil_mul_bounds P s hP hs).1
  omega

lemma splitPdf_get (P s i : Nat) (h : i < (splitPdf P s).length) :
    (splitPdf P s).get ⟨i, h⟩ = ⟨i * s, min (i * s + s) P⟩ := by
  rw [List.get_of_eq (splitPdf_eq_map_range P s)]
  rw [List.get_eq_getElem, List.getElem_map, List.getElem_range]

lemma splitPdf_chunk_full (P s i : Nat) (hP : 1 ≤ P) (hs : 1 ≤ s)
    (h : i + 1 < (P + s - 1) / s) :
    (Chunk.pageCount ⟨i * s, min (i * s + s) P⟩) = s := by
  have hb := (ceil_mul_bounds P s hP hs).2
  have hmono : (i + 1) * s ≤ ((P + s - 1) / s - 1) * s :=
    Nat.mul_le_mul_right s (by omega)
  have hmul : (i + 1) * s = i * s + s := Nat.succ_mul i s
  simp only [Chunk.pageCount]
  omega

lemma splitPdf_chunk_bounds (P s i : Nat) (hP : 1 ≤ P) (hs : 1 ≤ s)
    (h : i < (P + s - 1) / s) :
    1 ≤ Chunk.pageCount ⟨i * s, min (i * s + s) P⟩ ∧
      Chunk.pageCount ⟨i * s, min (i * s + s) P⟩ ≤ s := by
  have hb := (ceil_mul_bounds P s hP hs).2
  have hmono : i * s ≤ ((P + s - 1) / s - 1) * s :=
    Nat.mul_le_mul_right s (by omega)
  simp only [Chunk.pageCount]
  omega

/-! ### Claim theorems -/

/-- C1: the Markdown text returned by one `convert_to_markdown` call equals
the `content` fields of the collected per-chunk results sorted by `index`
ascending and joined with `"\n\n"`, and the returned text is invariant
under the completion order of the concurrent chunk jobs. -/
theorem convert_returns_sorted_join (P s m : Nat)
    (calls : Nat → Nat → Except String String) (order : List Nat)
    (hm : 1 ≤ m) (hn : 1 ≤ (splitPdf P s).length)
    (horder : order.Perm (List.range (splitPdf P s).length)) :
    ∃ rs : List ChunkResult,
      allSome (collectResults m calls order) = some rs ∧
      convertToMarkdown P s m calls order =
        Except.ok (String.intercalate "\n\n"
          ((sortResults rs).map ChunkResult.content)) ∧
      ∀ order2 : List Nat, order2.Perm (List.range (splitPdf P s).length) →
        convertToMarkdown P s m calls order2 =
          convertToMarkdown P s m calls order := by
  obtain ⟨rs, h1, h2, h3⟩ := collect_eq m hm calls order
  refine ⟨rs, h1, ?_, ?_⟩
  · simp only [convertToMarkdown, h1]
    rw [if_neg (by omega)]
  · intro order2 horder2
    rw [convert_eq_seq P s m calls order2 horder2,
      convert_eq_seq P s m calls order horder]

/-- Witness for C1: five chunks with distinct contents `A .. E` collected in
a shuffled completion order still assemble to `A\n\nB\n\nC\n\nD\n\nE`. -/
theorem convert_returns_sorted_join_witness :
    (∃ rs : List ChunkResult,
      allSome (collectResults 1 fakeFive [2, 0, 4, 1, 3]) = some rs ∧
      convertToMarkdown 5 1 1 fakeFive [2, 0, 4, 1, 3] =
        Except.ok (String.intercalate "\n\n"
          ((sortResults rs).map ChunkResult.content)) ∧
      ∀ order2 : List Nat, order2.Perm (List.range (splitPdf 5 1).length) →
        convertToMarkdown 5 1 1 fakeFive order2 =
          convertToMarkdown 5 1 1 fakeFive [2, 0, 4, 1, 3]) ∧
    convertToMarkdown 5 1 1 fakeFive [2, 0, 4, 1, 3] =
      Except.ok "A\n\nB\n\nC\n\nD\n\nE" :=
  ⟨convert_returns_sorted_join 5 1 1 fakeFive [2, 0, 4, 1, 3]
      (by decide) (by decide) (by decide), by rfl⟩

/-- C2: `_split_pdf` produces `⌈P / s⌉` chunks partitioning pages
`0 .. P-1` contiguously, in order, with no overlap and no gaps; every
chunk holds exactly `s` pages except possibly the last, which is nonempty
and no larger; a 10-page document with `chunk_size = 3` splits into the
1-based page ranges `[1-3], [4-6], [7-9], [10-10]`. -/
theorem splitPdf_partition (P s : Nat) (hP : 1 ≤ P) (hs : 1 ≤ s) :
    (splitPdf P s).length = (P + s - 1) / s ∧
    ((splitPdf P s).map Chunk.pages).flatten = List.range P ∧
    (∀ i : Nat, ∀ hi : i + 1 < (splitPdf P s).length,
      ((splitPdf P s).get ⟨i, Nat.lt_of_succ_lt hi⟩).pageCount = s) ∧
    (∀ i : Nat, ∀ hi : i < (splitPdf P s).length,
      1 ≤ ((splitPdf P s).get ⟨i, hi⟩).pageCount ∧
        ((splitPdf P s).get ⟨i, hi⟩).pageCount ≤ s) ∧
    (splitPdf 10 3).map (fun c => (c.firstPage, c.lastPage)) =
      [(1, 3), (4, 6), (7, 9), (10, 10)] := by
  refine ⟨splitPdf_length P s, splitPdf_flatten P s hP hs, ?_, ?_, by rfl⟩
  · intro i hi
    rw [splitPdf_get]
    exact splitPdf_chunk_full P s i hP hs (by rwa [splitPdf_length] at hi)
  · intro i hi
    rw [splitPdf_get]
    exact splitPdf_chunk_bounds P s i hP hs (by rwa [splitPdf_length] at hi)

/-- Witness for C2 at the spec's example of 10 pages and chunk size 3. -/
theorem splitPdf_partition_witness :
    ((splitPdf 10 3).map Chunk.pages).flatten = List.range 10 :=
  ((splitPdf_partition 10 3 (by decide) (by decide)).2).1

/-- C3 counterexample: with `max_retries = 3` and a client failing every
attempt, the recorded sleep durations are `[2^0, 2^1, 2^2]`, not
`[2^0, 2^1]`: line 143 sleeps before line 145 tests whether the attempt
was the last, so a `2^2` delay also occurs after the final attempt. -/
theorem processChunk_sleeps_after_final_attempt :
    (processChunk 3 0 alwaysFail).delays = [1, 2, 4] ∧
      (processChunk 3 0 alwaysFail).delays ≠ [2 ^ 0, 2 ^ 1] := by
  decide

/-- C3 (amended): with `max_retries = 3` and a client failing every
attempt, exactly 3 attempts occur; backoff delays `2^0` and `2^1` precede
attempts 2 and 3, and a further `2^2` delay follows the final attempt
before the failure result is returned — the delay list in order is
`[2^0, 2^1, 2^2]`. -/
theorem processChunk_retry_timing (call : Nat → Except String String)
    (err : Nat → String) (hfail : ∀ k, call k = Except.error (err k)) :
    (processChunk 3 0 call).callCount = 3 ∧
      (processChunk 3 0 call).delays = [2 ^ 0, 2 ^ 1, 2 ^ 2] := by
  rw [processChunk_all_fail 3 0 (by omega) call err hfail]
  exact ⟨rfl, rfl⟩

/-- Witness for C3 with the concrete always-failing client. -/
theorem processChunk_retry_timing_witness :
    (processChunk 3 0 alwaysFail).callCount = 3 ∧
      (processChunk 3 0 alwaysFail).delays = [2 ^ 0, 2 ^ 1, 2 ^ 2] :=
  processChunk_retry_timing alwaysFail (fun _ => "network error") (fun _ => rfl)

/-- C4: a chunk whose remote call fails on all `max_retries ≥ 1` attempts
still returns (never raises) a `ChunkResult` with `success = false` whose
`content` is the HTML-comment placeholder embedding the last attempt's
error message; the run still completes, the final output containing every
chunk's own content — the failed chunk's placeholder included. -/
theorem chunk_failure_absorbed (P s m j : Nat)
    (calls : Nat → Nat → Except String String) (err : Nat → String)
    (hm : 1 ≤ m) (hn : 1 ≤ (splitPdf P s).length)
    (hj : j < (splitPdf P s).length)
    (hfail : ∀ k, calls j k = Except.error (err k)) :
    (processChunk m j (calls j)).result =
      some ⟨j, failContent (err (m - 1)), false⟩ ∧
    chunkContent m calls j = failContent (err (m - 1)) ∧
    convertToMarkdown P s m calls (List.range (splitPdf P s).length) =
      Except.ok (String.intercalate "\n\n"
        ((List.range (splitPdf P s).length).map (chunkContent m calls))) ∧
    failContent (err (m - 1)) ∈
      (List.range (splitPdf P s).length).map (chunkContent m calls) := by
  have h1 : (processChunk m j (calls j)).result =
      some ⟨j, failContent (err (m - 1)), false⟩ := by
    rw [processChunk_all_fail m j hm (calls j) err hfail]
  have h2 : chunkContent m calls j = failContent (err (m - 1)) := by
    simp [chunkContent, h1]
  refine ⟨h1, h2, convert_seq_eval P s m hm hn calls, ?_⟩
  rw [← h2]
  exact List.mem_map_of_mem _ (List.mem_range.mpr hj)

/-- Witness for C4: two chunks, the first failing on both attempts, the
second succeeding; the run returns partial output with the placeholder. -/
theorem chunk_failure_absorbed_witness :
    (processChunk 2 0 (oneFailOneOk 0)).result =
      some ⟨0, failContent "boom", false⟩ ∧
    chunkContent 2 oneFailOneOk 0 = failContent "boom" ∧
    convertToMarkdown 2 1 2 oneFailOneOk (List.range (splitPdf 2 1).length) =
      Except.ok (String.intercalate "\n\n"
        ((List.range (splitPdf 2 1).length).map (chunkContent 2 oneFailOneOk))) ∧
    failContent "boom" ∈
      (List.range (splitPdf 2 1).length).map (chunkContent 2 oneFailOneOk) :=
  chunk_failure_absorbed 2 1 2 0 oneFailOneOk (fun _ => "boom")
    (by decide) (by decide) (by decide) (fun _ => rfl)

/-- C5 counterexample: with `max_retries = 0` the retry loop body never
runs and `_process_chunk` returns Python `None`, not a `ChunkResult`. -/
theorem processChunk_zero_retries_no_result :
    (processChunk 0 0 (fun _ => Except.ok "text")).result = none := rfl

/-- C5 (amended): for `max_retries ≥ 1`, every dispatched `_process_chunk`
call yields exactly one `ChunkResult` carrying its own chunk index, so in
either dispatch mode (any completion order, i.e. any permutation of
`0 .. N-1`) the index list of the collected results is a permutation of
`0 .. N-1`: no duplicates, no gaps. -/
theorem collect_indices_exact (m n : Nat) (hm : 1 ≤ m)
    (calls : Nat → Nat → Except String String) (order : List Nat)
    (horder : order.Perm (List.range n)) :
    ∃ rs : List ChunkResult,
      allSome (collectResults m calls order) = some rs ∧
      (rs.map ChunkResult.index).Perm (List.range n) ∧
      (rs.map ChunkResult.index).Nodup := by
  obtain ⟨rs, h1, h2, -⟩ := collect_eq m hm calls order
  refine ⟨rs, h1, ?_, ?_⟩ <;> rw [h2]
  · exact horder
  · exact horder.nodup_iff.mpr (List.nodup_range n)

/-- Witness for C5 with three chunks collected out of order. -/
theorem collect_indices_exact_witness :
    ∃ rs : List ChunkResult,
      allSome (collectResults 1 fakeOk [1, 2, 0]) = some rs ∧
      (rs.map ChunkResult.index).Perm (List.range 3) ∧
      (rs.map ChunkResult.index).Nodup :=
  collect_indices_exact 1 3 (by decide) fakeOk [1, 2, 0] (by decide)

/-- C6 counterexample: when `_split_pdf` raises after creating an
artifact, the artifact survives the call — the exception prevents the
assignment to `temp_files`, so the cleanup block iterates over the empty
initial list and removes nothing. -/
theorem convertFS_split_partial_leak :
    "chunk_a.pdf" ∈ (SplitOutcome.err ["chunk_a.pdf"] "disk full").created ∧
    (convertFS [] (SplitOutcome.err ["chunk_a.pdf"] "disk full")
        (fun _ => Except.ok "md")).1 = ["chunk_a.pdf"] := by
  exact ⟨List.mem_singleton.mpr rfl, rfl⟩

/-- C6 (amended): whenever `_split_pdf` returns normally, no chunk
artifact it created survives the `convert_to_markdown` call — whether the
processing/assembly body returns or raises; artifacts created by a
`_split_pdf` invocation that itself raised part-way are, however, not
removed by the call. -/
theorem convertFS_cleanup_after_split (disk files : List String)
    (body : List String → Except String String) (f : String) (hf : f ∈ files) :
    f ∉ (convertFS disk (SplitOutcome.ok files) body).1 := by
  intro hmem
  simp only [convertFS, SplitOutcome.created, SplitOutcome.assigned] at hmem
  rw [List.mem_filter] at hmem
  have h2 := hmem.2
  simp at h2
  exact h2 hf

/-- Witness for C6: an artifact created by a successful split is removed
even though the body raises. -/
theorem convertFS_cleanup_after_split_witness :
    "chunk_b.pdf" ∉ (convertFS [] (SplitOutcome.ok ["chunk_b.pdf"])
      (fun _ => Except.error "assembly failed")).1 :=
  convertFS_cleanup_after_split [] ["chunk_b.pdf"]
    (fun _ => Except.error "assembly failed") "chunk_b.pdf"
    (List.mem_singleton.mpr rfl)

/-- C7: for a fixed per-chunk outcome assignment, concurrent dispatch (any
completion order of the jobs) and sequential dispatch (index order)
produce identical final results: the two modes differ only in latency,
never in output. -/
theorem convert_parallel_eq_sequential (P s m : Nat)
    (calls : Nat → Nat → Except String String) (order : List Nat)
    (horder : order.Perm (List.range (splitPdf P s).length)) :
    convertToMarkdown P s m calls order =
      convertToMarkdown P s m calls (List.range (splitPdf P s).length) :=
  convert_eq_seq P s m calls order horder

/-- Witness for C7: the spec's end-to-end scenario — 10 pages, chunk size
3, fake contents `chunk{index}` — with a shuffled completion order. -/
theorem convert_parallel_eq_sequential_witness :
    convertToMarkdown 10 3 1 fakeChunks [3, 1, 0, 2] =
      convertToMarkdown 10 3 1 fakeChunks (List.range (splitPdf 10 3).length) ∧
    convertToMarkdown 10 3 1 fakeChunks [3, 1, 0, 2] =
      Except.ok "chunk0\n\nchunk1\n\nchunk2\n\nchunk3" :=
  ⟨convert_parallel_eq_sequential 10 3 1 fakeChunks [3, 1, 0, 2] (by decide),
   by rfl⟩

/-- C8: any uncaught orchestration error — `_split_pdf` raising, or the
processing/assembly body raising — is re-raised to the caller as a single
exception wrapping the underlying message with context, and the
observable final disk already reflects the cleanup block, which removes every
`temp_files` entry before the exception propagates. -/
theorem convertFS_wraps_and_cleans (disk : List String) (split : SplitOutcome)
    (body : List String → Except String String) (e : String)
    (h : (∃ createdFiles, split = SplitOutcome.err createdFiles e) ∨
         (∃ files, split = SplitOutcome.ok files ∧ body files = Except.error e)) :
    (convertFS disk split body).2 = Except.error (wrapError e) ∧
    ∀ f ∈ split.assigned, f ∉ (convertFS disk split body).1 := by
  constructor
  · rcases h with ⟨c, rfl⟩ | ⟨files, rfl, hbody⟩
    · rfl
    · simp [convertFS, hbody]
  · intro f hf hmem
    simp only [convertFS] at hmem
    rw [List.mem_filter] at hmem
    have h2 := hmem.2
    simp at h2
    exact h2 hf

/-- Witness for C8: a body error is wrapped and the artifact is cleaned. -/
theorem convertFS_wraps_and_cleans_witness :
    (convertFS [] (SplitOutcome.ok ["chunk_c.pdf"])
        (fun _ => Except.error "io error")).2 =
      Except.error (wrapError "io error") ∧
    ∀ f ∈ (SplitOutcome.ok ["chunk_c.pdf"]).assigned,
      f ∉ (convertFS [] (SplitOutcome.ok ["chunk_c.pdf"])
        (fun _ => Except.error "io error")).1 :=
  convertFS_wraps_and_cleans [] (SplitOutcome.ok ["chunk_c.pdf"])
    (fun _ => Except.error "io error") "io error"
    (Or.inr ⟨["chunk_c.pdf"], rfl, rfl⟩)

/-- C9: `save_markdown` overwrites: after saving, the destination holds
exactly the text, and saving the same text to the same destination twice
equals saving it once — idempotent, last write wins, no duplication. -/
theorem saveMarkdown_overwrite_idempotent (fs : FileMap) (text path : String) :
    saveMarkdown fs text path path = some text ∧
    saveMarkdown (saveMarkdown fs text path) text path =
      saveMarkdown fs text path := by
  constructor
  · simp [saveMarkdown]
  · funext p
    by_cases h : p = path <;> simp [saveMarkdown, h]

/-- C10: a readable zero-page document yields zero chunks, after which the
success-ratio statistic divides by the chunk count 0, so
`convert_to_markdown` raises the wrapped `ZeroDivisionError` instead of
returning an empty result. -/
theorem convert_zero_pages_raises (s m : Nat)
    (calls : Nat → Nat → Except String String) :
    splitPdf 0 s = [] ∧
    convertToMarkdown 0 s m calls [] =
      Except.error (wrapError "division by zero") ∧
    ∀ md : String, convertToMarkdown 0 s m calls [] ≠ Except.ok md := by
  have hsplit : splitPdf 0 s = [] := by
    rw [splitPdf_eq_map_range]
    have hdiv : (0 + s - 1) / s = 0 := by
      rcases Nat.eq_zero_or_pos s with rfl | hs
      · rfl
      · exact Nat.div_eq_of_lt (by omega)
    rw [hdiv]
    rfl
  have h2 : convertToMarkdown 0 s m calls [] =
      Except.error (wrapError "division by zero") := by
    simp [convertToMarkdown, hsplit, collectResults, allSome]
  refine ⟨hsplit, h2, fun md h => ?_⟩
  rw [h2] at h
  exact Except.noConfusion h

end Pdf2Md
